import Mathlib

/-!
# Verification of the enrichment-plant dashboard core (parsers and signal engine)

Shallow embedding of the TypeScript sources:
* `src/src/lib/config.ts` — threshold-based signal classification,
* `src/src/lib/parsers/utils.ts` — scalar utilities, the water parser's
  by-date merge, the downtime-history parser,
* the shift-journal parser and the hazard detector (unnamed source parts).

Modelling conventions:
* JavaScript numbers are modelled as exact rationals (`ℚ`); floating-point
  rounding and NaN/Infinity propagation are not modelled (inputs that the
  sources guard against, such as formula-error strings, are handled by the
  explicit guards translated below).
* Spreadsheet cell values (after `sheet_to_json` with `defval: ''`) are
  `Cell`: a number, a string, or `undefined` for out-of-bounds row access.
* JavaScript `Date` time values are modelled as exact rational millisecond
  counts with the server clock in UTC; sub-millisecond clipping of time
  values is not modelled.
* Config values (`config/thresholds.json` is not among the sources) are
  passed as explicit parameters; the shape follows `src/src/lib/config.ts`.
-/

attribute [local semireducible] Rat.mul Rat.add Rat.sub Rat.inv

/-- The three-level signal colour from `src/src/lib/config.ts`. -/
inductive SignalColor where
  | green
  | yellow
  | red
deriving DecidableEq, Repr

/-- Numeric severity order used to state monotonicity: green < yellow < red. -/
def signalOrd : SignalColor → ℕ
  | .green => 0
  | .yellow => 1
  | .red => 2

/-- Threshold configuration consumed by the signal engine.  The field layout
mirrors the `config` object of `src/src/lib/config.ts`; the concrete values
live in `config/thresholds.json`, which is not part of the sources, so all
theorems below are parametric in them. -/
structure SignalThresholds where
  prodTargetPct : ℚ
  prodYellowPct : ℚ
  prodRedPct : ℚ
  downGreenMax : ℚ
  downYellowMax : ℚ
  waterYellowOverPct : ℚ
  waterRedOverPct : ℚ
  prioDowntimeWeight : ℚ
  prioWaterWeight : ℚ
  prioProdWeight : ℚ
deriving DecidableEq

/-- `getProductivitySignal` from `src/src/lib/config.ts`:
`dropPct = ((target - current) / target) * 100`, red above the red
threshold, yellow above the yellow threshold, else green. -/
def getProductivitySignal (cfg : SignalThresholds) (currentPct targetPct : ℚ) : SignalColor :=
  let dropPct := (targetPct - currentPct) / targetPct * 100
  if cfg.prodRedPct < dropPct then .red
  else if cfg.prodYellowPct < dropPct then .yellow
  else .green

/-- `getDowntimeSignal` from `src/src/lib/config.ts`. -/
def getDowntimeSignal (cfg : SignalThresholds) (totalMinutes : ℚ) : SignalColor :=
  if cfg.downYellowMax < totalMinutes then .red
  else if cfg.downGreenMax < totalMinutes then .yellow
  else .green

/-- `getWaterSignal` from `src/src/lib/config.ts`: `nominal <= 0` short
circuits to green, otherwise `overPct = ((actual - nominal) / nominal) * 100`
is compared with the red and then the yellow threshold. -/
def getWaterSignal (cfg : SignalThresholds) (actual nominal : ℚ) : SignalColor :=
  if nominal ≤ 0 then .green
  else
    let overPct := (actual - nominal) / nominal * 100
    if cfg.waterRedOverPct < overPct then .red
    else if cfg.waterYellowOverPct < overPct then .yellow
    else .green

/-- The water signal as the specification states it: green for a
non-positive nominal; otherwise red when `overPct` exceeds the red
threshold, yellow when it exceeds only the yellow threshold, green
otherwise.  Stated separately from `getWaterSignal` so that the code can be
proved to refine the specification's wording. -/
def waterSignalSpec (cfg : SignalThresholds) (actual nominal : ℚ) : SignalColor :=
  if nominal ≤ 0 then .green
  else
    let overPct := (actual - nominal) / nominal * 100
    if cfg.waterRedOverPct < overPct then .red
    else if cfg.waterYellowOverPct < overPct ∧ overPct ≤ cfg.waterRedOverPct then .yellow
    else .green

/-- Lower-casing of a character as JavaScript `toLowerCase` performs it on
the alphabets this code base uses (ASCII and the Cyrillic range А-Я, Ё). -/
def jsLowerChar (c : Char) : Char :=
  if 'A' ≤ c ∧ c ≤ 'Z' then Char.ofNat (c.toNat + 32)
  else if 'А' ≤ c ∧ c ≤ 'Я' then Char.ofNat (c.toNat + 32)
  else if c = 'Ё' then 'ё'
  else c

/-- Upper-casing of a character as JavaScript `toUpperCase` performs it on
ASCII and the Cyrillic range а-я, ё. -/
def jsUpperChar (c : Char) : Char :=
  if 'a' ≤ c ∧ c ≤ 'z' then Char.ofNat (c.toNat - 32)
  else if 'а' ≤ c ∧ c ≤ 'я' then Char.ofNat (c.toNat - 32)
  else if c = 'ё' then 'Ё'
  else c

/-- JavaScript `String.prototype.toLowerCase` (restricted to the alphabets
above). -/
def jsLowerStr (s : String) : String := String.mk (s.data.map jsLowerChar)

/-- JavaScript `String.prototype.toUpperCase` (restricted to the alphabets
above). -/
def jsUpperStr (s : String) : String := String.mk (s.data.map jsUpperChar)

/-- JavaScript `String.prototype.trim`; JS whitespace is modelled by
`Char.isWhitespace`. -/
def jsTrim (s : String) : String :=
  String.mk (((s.data.dropWhile Char.isWhitespace).reverse.dropWhile Char.isWhitespace).reverse)

/-- One pass of `replace(/\s+/g, ' ')`: collapse whitespace runs to a single
space.  The boolean records whether the previous character was whitespace. -/
def collapseWsAux : Bool → List Char → List Char
  | _, [] => []
  | prevWs, c :: cs =>
    if c.isWhitespace then
      if prevWs then collapseWsAux true cs
      else ' ' :: collapseWsAux true cs
    else c :: collapseWsAux false cs

/-- `cleanText` of `src/src/lib/parsers/utils.ts` on a string:
`trim().replace(/\s+/g, ' ')`. -/
def cleanString (s : String) : String := String.mk (collapseWsAux false (jsTrim s).data)

/-- A spreadsheet cell as produced by `sheet_to_json` with `defval: ''`:
a number, a string, or `undefined` for access past the end of a row. -/
inductive Cell where
  | num (value : ℚ)
  | str (value : String)
  | undefined
deriving DecidableEq

/-- JavaScript `row[i]`: `undefined` past the end of the row. -/
def getCell (row : List Cell) (i : ℕ) : Cell := row.getD i .undefined

/-- JavaScript `row[i] ?? ''`. -/
def getCellOrEmpty (row : List Cell) (i : ℕ) : Cell :=
  match getCell row i with
  | .undefined => .str ""
  | c => c

/-- JavaScript truthiness of a cell value: `0`, `''` and `undefined` are
falsy. -/
def cellTruthy : Cell → Bool
  | .num q => q ≠ 0
  | .str s => s ≠ ""
  | .undefined => false

/-- Display form of a number, standing in for JavaScript `String(number)`.
Only the emptiness and the character classes of the result are relevant to
the verified claims (such a string is never empty and never starts with
"№", "Остаток" or a classification letter), so the exact decimal rendering
of non-integral rationals is simplified to `num/den`. -/
def qToDisplayString (q : ℚ) : String :=
  if q.den = 1 then toString q.num else toString q.num ++ "/" ++ toString q.den

/-- JavaScript `String(value)` on a cell; `String(undefined)` is the string
`"undefined"`. -/
def cellToString : Cell → String
  | .num q => qToDisplayString q
  | .str s => s
  | .undefined => "undefined"

/-- `cleanText` of `src/src/lib/parsers/utils.ts` on a cell value. -/
def cleanText (c : Cell) : String := cleanString (cellToString c)

/-- Numeric value of a digit list (most significant first). -/
def digitsVal (ds : List Char) : ℕ :=
  ds.foldl (fun acc c => acc * 10 + (c.toNat - '0'.toNat)) 0

/-- Decimal literal parsing: digits, optionally followed by a dot and more
digits; at least one digit in total. -/
def parseDecimalCore (cs : List Char) : Option ℚ :=
  let intDigits := cs.takeWhile Char.isDigit
  let rest := cs.dropWhile Char.isDigit
  match rest with
  | [] => if intDigits.isEmpty then none else some (digitsVal intDigits)
  | '.' :: frac =>
      if frac.all Char.isDigit ∧ ¬(intDigits.isEmpty ∧ frac.isEmpty) then
        some ((digitsVal intDigits : ℚ) + (digitsVal frac : ℚ) / (10 ^ frac.length : ℚ))
      else none
  | _ => none

/-- JavaScript `Number(string)` restricted to plain decimal literals with an
optional sign; a whitespace-only string converts to `0`.  (Hexadecimal and
exponent notations are not modelled; no parsed workbook relies on them.) -/
def jsStringToNumber (s : String) : Option ℚ :=
  match (jsTrim s).data with
  | [] => some 0
  | '+' :: rest => parseDecimalCore rest
  | '-' :: rest => (parseDecimalCore rest).map Neg.neg
  | cs => parseDecimalCore cs

/-- `parseNumeric`/`isValidNumeric` of `src/src/lib/parsers/utils.ts`:
`null` for `undefined`, the empty string, formula-error markers (strings
starting with `#`), `"NaN"`, `"Infinity"`, and strings that do not coerce
to a finite number; otherwise the numeric value. -/
def parseNumeric : Cell → Option ℚ
  | .num q => some q
  | .str s =>
      if s = "" ∨ s.startsWith "#" ∨ s = "NaN" ∨ s = "Infinity" then none
      else jsStringToNumber s
  | .undefined => none

/-- Milliseconds per day. -/
def msPerDay : ℚ := 86400000

/-- `new Date(1899, 11, 30).getTime()` with the server clock in UTC:
the Excel epoch 1899-12-30T00:00Z in Unix milliseconds. -/
def excelEpochMs : ℚ := -2208988800000

/-- `excelDateToJSDate` of `src/src/lib/parsers/utils.ts`, as the UTC
millisecond value of the resulting `Date`. -/
def excelDateToJSDate (excelDate : ℚ) : ℚ := excelEpochMs + excelDate * msPerDay

/-- The UTC day number (days since 1970-01-01) of a millisecond value; this
is the quantity that determines the date part of `toISOString`. -/
def utcDayNumber (ms : ℚ) : ℤ := ⌊ms / msPerDay⌋

/-- The calendar day, as a day number, that `toISODateString ∘
excelDateToJSDate` derives from an Excel serial. -/
def excelSerialToDayNumber (serial : ℚ) : ℤ := utcDayNumber (excelDateToJSDate serial)

/-- Proleptic-Gregorian (year, month, day) of a 1970-01-01-based day
number — the computation behind the date part of `toISOString`. -/
def civilFromDays (z : ℤ) : ℤ × ℕ × ℕ :=
  let era : ℤ := Int.fdiv (z + 719468) 146097
  let doe : ℕ := (z + 719468 - era * 146097).toNat
  let yoe : ℕ := (doe - doe / 1460 + doe / 36524 - doe / 146096) / 365
  let doy : ℕ := doe - (365 * yoe + yoe / 4 - yoe / 100)
  let mp : ℕ := (5 * doy + 2) / 153
  let d : ℕ := doy - (153 * mp + 2) / 5 + 1
  let m : ℕ := if mp < 10 then mp + 3 else mp - 9
  let y : ℤ := (yoe : ℤ) + era * 400
  (if m ≤ 2 then y + 1 else y, m, d)

/-- Zero-pad a numeral to two digits (for the month/day components). -/
def padNat2 (n : ℕ) : String := if n < 10 then "0" ++ toString n else toString n

/-- Zero-pad a numeral to four digits (for the year component; the years in
scope all lie in 0..9999). -/
def padNat4 (n : ℕ) : String :=
  if n < 10 then "000" ++ toString n
  else if n < 100 then "00" ++ toString n
  else if n < 1000 then "0" ++ toString n
  else toString n

/-- The "YYYY-MM-DD" rendering of a day number. -/
def isoDateOfDay (day : ℤ) : String :=
  let c := civilFromDays day
  padNat4 c.1.toNat ++ "-" ++ padNat2 c.2.1 ++ "-" ++ padNat2 c.2.2

/-- `toISODateString` of `src/src/lib/parsers/utils.ts`:
`date.toISOString().split('T')[0]`, on the UTC millisecond value. -/
def toISODateString (ms : ℚ) : String := isoDateOfDay (utcDayNumber ms)

/-- JavaScript `padStart(2, '0')`. -/
def padStart2 (s : String) : String := if s.length < 2 then "0" ++ s else s

/-- `excelTimeToString` of `src/src/lib/parsers/utils.ts`.  `Math.round`
is `⌊x + 1/2⌋` (Mathlib's `round`), `Math.floor(totalMinutes / 60)` is
`Int.fdiv`, and the JavaScript `%` is the truncated remainder `Int.tmod`.
The `isValidNumeric` guard of the source only rejects NaN/Infinity and so
cannot fire for a rational argument; it is omitted. -/
def excelTimeToString (excelTime : ℚ) : String :=
  let totalMinutes : ℤ := round (excelTime * 24 * 60)
  let hours : ℤ := Int.tmod (Int.fdiv totalMinutes 60) 24
  let minutes : ℤ := Int.tmod totalMinutes 60
  padStart2 (toString hours) ++ ":" ++ padStart2 (toString minutes)

/-- Does `pat` occur at the start of `s`? (char-list core of
JavaScript's `startsWith`, used to build the substring test). -/
def strStartsAux : List Char → List Char → Bool
  | [], _ => true
  | _ :: _, [] => false
  | p :: ps, c :: cs => p == c && strStartsAux ps cs

/-- Does `pat` occur anywhere inside `s`? (char-list core of JavaScript's
`includes`). -/
def strContainsAux (pat : List Char) : List Char → Bool
  | [] => strStartsAux pat []
  | c :: cs => strStartsAux pat (c :: cs) || strContainsAux pat cs

/-- JavaScript `text.toLowerCase().includes(kw.toLowerCase())`, the
case-insensitive keyword test of the hazard detector. -/
def jsIncludes (text kw : String) : Bool :=
  strContainsAux (jsLowerStr kw).data (jsLowerStr text).data

/-- Hazard severity tiers of the hazard detector source. -/
inductive HazardSeverity where
  | low
  | medium
  | high
deriving DecidableEq, Repr

/-- `DetectedHazard` of the hazard detector source. -/
structure DetectedHazard where
  description : String
  severity : HazardSeverity
  matchedKeyword : String
deriving DecidableEq

/-- The three configured keyword lists (`config.hazardKeywords`); the
concrete lists live in `config/thresholds.json`, outside the sources, so
the theorems are parametric in them. -/
structure HazardKeywordConfig where
  high : List String
  medium : List String
  low : List String

/-- One tier's collection loop of `detectHazardsFromText`: scan the keyword
list in order, emitting one entry per matching keyword that is not yet in
the `seen` set, and adding each matched keyword to the set. -/
def collectTier (text : String) (sev : HazardSeverity) :
    List String → List String → List DetectedHazard
  | [], _ => []
  | kw :: rest, seen =>
    if jsIncludes text kw && !(seen.contains kw) then
      ⟨text, sev, kw⟩ :: collectTier text sev rest (kw :: seen)
    else
      collectTier text sev rest seen

/-- `detectHazardsFromText` of the hazard detector source: empty text
returns no hazards; the high loop returns a single entry at its first match
(`List.find?` renders the for-loop with an early `return`); otherwise the
medium entries are collected, and the low list is scanned only when no
medium keyword matched.  The matched-keyword set is threaded through each
collection loop; it is necessarily empty when a tier's loop starts, because
the high loop returns immediately after its only possible insertion. -/
def detectHazardsFromText (cfg : HazardKeywordConfig) (text : String) : List DetectedHazard :=
  if text = "" then []
  else
    match cfg.high.find? (fun kw => jsIncludes text kw) with
    | some kw => [⟨text, .high, kw⟩]
    | none =>
      match collectTier text .medium cfg.medium [] with
      | [] => collectTier text .low cfg.low []
      | h :: t => h :: t

/-- Keep the first occurrence of each string, relative to an already-seen
set. -/
def dedupFirstAux : List String → List String → List String
  | [], _ => []
  | a :: l, seen =>
    if seen.contains a then dedupFirstAux l seen
    else a :: dedupFirstAux l (a :: seen)

/-- Keep the first occurrence of each string. -/
def dedupFirst (l : List String) : List String := dedupFirstAux l []

/-- The hazard detector as the specification's words describe it: a single
high entry for the first matching high keyword; otherwise one entry per
distinct matching medium keyword; otherwise one entry per distinct matching
low keyword; otherwise nothing. -/
def expectedHazards (cfg : HazardKeywordConfig) (text : String) : List DetectedHazard :=
  match cfg.high.find? (fun kw => jsIncludes text kw) with
  | some kw => [⟨text, .high, kw⟩]
  | none =>
    match dedupFirst (cfg.medium.filter (fun kw => jsIncludes text kw)) with
    | [] =>
        (dedupFirst (cfg.low.filter (fun kw => jsIncludes text kw))).map
          (fun kw => ⟨text, .low, kw⟩)
    | m :: med => (m :: med).map (fun kw => ⟨text, .medium, kw⟩)

/-- `WaterDailyRecord` of the water parser (`parseWater`). -/
structure WaterDailyRecord where
  date : String
  meterReading : Option ℚ
  actualDaily : Option ℚ
  actualHourly : Option ℚ
  nominalDaily : Option ℚ
  monthLabel : Option String
deriving DecidableEq

/-- JavaScript nullish coalescing `a ?? b` on nullable values. -/
def jsCoalesce (a b : Option α) : Option α :=
  match a with
  | some x => some x
  | none => b

/-- The per-field merge of `parseWater`'s deduplication:
`record.field ?? existing.field`, so the incoming (later-scanned) record's
non-null fields win and `null` never overwrites a populated field. -/
def mergeWaterRecord (existing record : WaterDailyRecord) : WaterDailyRecord :=
  { date := record.date
    meterReading := jsCoalesce record.meterReading existing.meterReading
    actualDaily := jsCoalesce record.actualDaily existing.actualDaily
    actualHourly := jsCoalesce record.actualHourly existing.actualHourly
    nominalDaily := jsCoalesce record.nominalDaily existing.nominalDaily
    monthLabel := jsCoalesce record.monthLabel existing.monthLabel }

/-- One `dateMap.set` step of `parseWater`'s deduplication: a JavaScript
`Map` keeps the position of an existing key and appends a new key at the
end. -/
def dedupeWaterStep (acc : List WaterDailyRecord) (r : WaterDailyRecord) :
    List WaterDailyRecord :=
  if acc.any (fun e => e.date == r.date) then
    acc.map (fun e => if e.date == r.date then mergeWaterRecord e r else e)
  else acc ++ [r]

/-- The by-date deduplication of `parseWater`
(`src/src/lib/parsers/utils.ts`, the `dateMap` loop): fold the scanned rows
into a date-keyed map, merging duplicates, and return the map's values. -/
def dedupeWaterByDate (rs : List WaterDailyRecord) : List WaterDailyRecord :=
  rs.foldl dedupeWaterStep []

/-- Merge a run of same-date records into a seed record, in scan order. -/
def mergeRun (e : WaterDailyRecord) (l : List WaterDailyRecord) : WaterDailyRecord :=
  l.foldl mergeWaterRecord e

/-- Merge a run of same-date records into an optional seed. -/
def mergeSeed : Option WaterDailyRecord → List WaterDailyRecord → Option WaterDailyRecord
  | some e, l => some (mergeRun e l)
  | none, [] => none
  | none, r :: l => some (mergeRun r l)

/-- The last non-null value of a list of nullable values (what the code's
merge computes per field). -/
def lastSome : List (Option α) → Option α
  | [] => none
  | a :: l =>
    match lastSome l with
    | some x => some x
    | none => a

/-- The first non-null value of a list of nullable values (what the claim
asserts the merge computes per field). -/
def firstSome : List (Option α) → Option α
  | [] => none
  | a :: l =>
    match a with
    | some x => some x
    | none => firstSome l

/-- First water row of the duplicate-date example. -/
def waterCexA : WaterDailyRecord :=
  ⟨"2026-01-31", some 1, none, none, none, some "январь 2026 г."⟩

/-- Second water row of the duplicate-date example: same date, and a
non-null meter reading competing with the first row's. -/
def waterCexB : WaterDailyRecord :=
  ⟨"2026-01-31", some 2, some 80, none, none, some "февраль 2026 г."⟩

/-- `TechProductivityRecord` of the shift-journal parser; the `hour` field
is a JavaScript number, hence a rational here. -/
structure TechProductivityRecord where
  date : String
  shiftNumber : ℕ
  hour : ℚ
  millLine : ℕ
  valuePct : ℚ
deriving DecidableEq

/-- The skip test for the average row:
`typeof hourValue === 'string' && hourValue.toLowerCase() === 'среднее'`. -/
def isSredneeCell : Cell → Bool
  | .str s => jsLowerStr s == "среднее"
  | _ => false

/-- One row of the hourly-productivity window of `parseTechJournal`
(rows 4-16): skip short rows and the average row; parse the hour label
(`?? -1`); skip it outside [0,24]; normalize 24 to 0; then emit one record
per mill column 1-5 holding a parseable numeric value. -/
def techHourRow (dateStr : String) (shiftNumber : ℕ) (row : List Cell) :
    List TechProductivityRecord :=
  if row.length < 2 then []
  else if isSredneeCell (getCell row 0) then []
  else
    let hour0 : ℚ := (parseNumeric (getCell row 0)).getD (-1)
    if hour0 < 0 ∨ 24 < hour0 then []
    else
      let hour : ℚ := if hour0 = 24 then 0 else hour0
      ([1, 2, 3, 4, 5] : List ℕ).filterMap (fun millIdx =>
        (parseNumeric (getCell row millIdx)).map (fun v =>
          { date := dateStr, shiftNumber := shiftNumber, hour := hour,
            millLine := millIdx, valuePct := v }))

/-- The hourly-productivity scan of `parseTechJournal` over one matched
sheet: row indices 4 through 16 (inclusive) that exist. -/
def parseTechProductivityRows (data : List (List Cell)) (dateStr : String)
    (shiftNumber : ℕ) : List TechProductivityRecord :=
  ((data.drop 4).take 13).flatMap (techHourRow dateStr shiftNumber)

/-- A shift-journal sheet fragment whose row 4 carries the fractional hour
label 23.5 and a mill-1 value of 80. -/
def techCexRows : List (List Cell) :=
  [[], [], [], [], [Cell.num (mkRat 47 2), Cell.num 80]]

/-- The (year, month, day) triple handed to `new Date(year, month, day)`;
the month is 0-indexed as in the sources.  JavaScript's field-overflow
normalization inside the `Date` constructor is not modelled — the
year-resolution logic under scrutiny happens before the constructor
runs. -/
structure RuDate where
  year : ℤ
  month : ℤ
  day : ℕ
deriving DecidableEq

/-- Take exactly `n` digits off the front of the character list,
accumulating their value. -/
def takeDigitsAux : ℕ → ℕ → List Char → Option (ℕ × List Char)
  | 0, acc, cs => some (acc, cs)
  | n + 1, acc, c :: cs =>
    if c.isDigit then takeDigitsAux n (acc * 10 + (c.toNat - 48)) cs else none
  | _ + 1, _, [] => none

/-- Take exactly `n` digits off the front of the character list. -/
def takeDigits (n : ℕ) (cs : List Char) : Option (ℕ × List Char) :=
  takeDigitsAux n 0 cs

/-- Match the date part `(\d{1,2})\.(\d{1,2})\.(\d{2,4})` of the Russian
date regex at the head of `cs`, in the regex engine's greedy backtracking
order (longer digit runs first), returning day, month, year and the
remaining characters. -/
def matchRuDateAt (cs : List Char) : Option (ℕ × ℕ × ℕ × List Char) :=
  ([2, 1] : List ℕ).findSome? (fun l1 =>
    match takeDigits l1 cs with
    | none => none
    | some (d, cs1) =>
      match cs1 with
      | '.' :: cs2 =>
        ([2, 1] : List ℕ).findSome? (fun l2 =>
          match takeDigits l2 cs2 with
          | none => none
          | some (m, cs3) =>
            match cs3 with
            | '.' :: cs4 =>
              ([4, 3, 2] : List ℕ).findSome? (fun l3 =>
                match takeDigits l3 cs4 with
                | none => none
                | some (y, cs5) => some (d, m, y, cs5))
            | _ => none)
      | _ => none)

/-- Scan left to right for the first position where the Russian date
pattern matches (JavaScript `String.prototype.match` semantics). -/
def findRuDate : List Char → Option (ℕ × ℕ × ℕ)
  | [] => none
  | c :: cs =>
    match matchRuDateAt (c :: cs) with
    | some (d, m, y, _) => some (d, m, y)
    | none => findRuDate cs

/-- The two-digit-year pivot of `parseRussianDate`: a value below 50
resolves to 2000+, one in 50..99 to 1900+. -/
def resolveRussianYear (y : ℕ) : ℤ :=
  if y < 100 then (if y < 50 then (y : ℤ) + 2000 else (y : ℤ) + 1900) else (y : ℤ)

/-- `parseRussianDate` of `src/src/lib/parsers/utils.ts` on a string input
(the numeric-input branch delegates to `excelDateToJSDate` and does not
concern the year-pivot claim). -/
def parseRussianDate (dateStr : String) : Option RuDate :=
  if dateStr = "" then none
  else
    match findRuDate dateStr.data with
    | none => none
    | some (d, m, y) => some ⟨resolveRussianYear y, (m : ℤ) - 1, d⟩

/-- Match the shift marker `см(\d)` (with the regex's `i` flag on the two
Cyrillic letters) at the head of the character list. -/
def matchShiftTail (cs : List Char) : Option ℕ :=
  match cs with
  | c1 :: c2 :: c3 :: _ =>
    if (c1 = 'с' ∨ c1 = 'С') ∧ (c2 = 'м' ∨ c2 = 'М') ∧ c3.isDigit then
      some (c3.toNat - 48)
    else none
  | _ => none

/-- Match the sheet-name regex `(\d{1,2})\.(\d{1,2})\.(\d{2,4})см(\d)` at
the head of `cs`, backtracking over the year width until the shift marker
follows. -/
def matchSheetNameAt (cs : List Char) : Option (ℕ × ℕ × ℕ × ℕ) :=
  ([2, 1] : List ℕ).findSome? (fun l1 =>
    match takeDigits l1 cs with
    | none => none
    | some (d, cs1) =>
      match cs1 with
      | '.' :: cs2 =>
        ([2, 1] : List ℕ).findSome? (fun l2 =>
          match takeDigits l2 cs2 with
          | none => none
          | some (m, cs3) =>
            match cs3 with
            | '.' :: cs4 =>
              ([4, 3, 2] : List ℕ).findSome? (fun l3 =>
                match takeDigits l3 cs4 with
                | none => none
                | some (y, cs5) =>
                  match matchShiftTail cs5 with
                  | none => none
                  | some sn => some (d, m, y, sn))
            | _ => none)
      | _ => none)

/-- Scan left to right for the first sheet-name pattern match. -/
def findSheetName : List Char → Option (ℕ × ℕ × ℕ × ℕ)
  | [] => none
  | c :: cs =>
    match matchSheetNameAt (c :: cs) with
    | some r => some r
    | none => findSheetName cs

/-- The year resolution of `parseSheetName`: any parsed value below 100
gets 2000 added unconditionally — no 1950 pivot. -/
def resolveSheetYear (y : ℕ) : ℤ := if y < 100 then (y : ℤ) + 2000 else (y : ℤ)

/-- The `{ date, shiftNumber }` result of `parseSheetName`. -/
structure SheetNameResult where
  date : Option RuDate
  shiftNumber : Option ℕ
deriving DecidableEq

/-- `parseSheetName` of `src/src/lib/parsers/utils.ts`. -/
def parseSheetName (sheetName : String) : SheetNameResult :=
  match findSheetName sheetName.data with
  | none => ⟨none, none⟩
  | some (d, m, y, sn) => ⟨some ⟨resolveSheetYear y, (m : ℤ) - 1, d⟩, some sn⟩

/-- Code-unit lexicographic comparison of character lists (JavaScript
string `<=`). -/
def charListLe : List Char → List Char → Bool
  | [], _ => true
  | _ :: _, [] => false
  | a :: as, b :: bs =>
    if a.toNat < b.toNat then true
    else if b.toNat < a.toNat then false
    else charListLe as bs

/-- JavaScript string comparison `a <= b` (code-unit lexicographic; all
characters in scope are in the basic plane, where code units coincide with
code points). -/
def jsStrLe (a b : String) : Bool := charListLe a.data b.data

/-- A daily productivity aggregate as read by `computeSignals`'s priority
loop (`byHour` is never read there and is omitted). -/
structure ProdDay where
  date : String
  avgPct : ℚ
deriving DecidableEq

/-- A daily downtime aggregate as read by the priority loop
(`byEquipment`, `byClassification` and `reasons` are not read there). -/
structure DownDay where
  date : String
  totalMinutes : ℚ
deriving DecidableEq

/-- A daily water aggregate. -/
structure WaterDay where
  date : String
  actual : ℚ
  nominal : ℚ
deriving DecidableEq

/-- The `DashboardData` input of `computeSignals`. -/
structure DashboardData where
  productivity : List ProdDay
  downtime : List DownDay
  water : List WaterDay

/-- `PriorityItem` of the signal engine.  The `description` string is pure
display formatting (`toFixed` renderings of the numbers already carried in
`value`) and is omitted from the model. -/
structure PriorityItem where
  id : String
  type : String
  score : ℚ
  signal : SignalColor
  value : ℚ
  unit : String
  date : String
deriving DecidableEq

/-- The date-range filter of `computeSignals`:
`d.date >= from && d.date <= to` when a range is given. -/
def inRange (rng : Option (String × String)) (d : String) : Bool :=
  match rng with
  | none => true
  | some (f, t) => jsStrLe f d && jsStrLe d t

/-- The downtime arm of the priority loop: one item per day above the
downtime green ceiling, scored `totalMinutes * downtimeWeight`. -/
def mkDowntimeItem (cfg : SignalThresholds) (d : DownDay) : Option PriorityItem :=
  if cfg.downGreenMax < d.totalMinutes then
    some { id := "downtime-" ++ d.date, type := "downtime",
           score := d.totalMinutes * cfg.prioDowntimeWeight,
           signal := getDowntimeSignal cfg d.totalMinutes,
           value := d.totalMinutes, unit := "мин", date := d.date }
  else none

/-- The water arm of the priority loop: one item per day with positive
nominal whose over-percentage exceeds the water yellow threshold, scored
`overPct * waterOverWeight`. -/
def mkWaterItem (cfg : SignalThresholds) (w : WaterDay) : Option PriorityItem :=
  if 0 < w.nominal then
    let overPct := (w.actual - w.nominal) / w.nominal * 100
    if cfg.waterYellowOverPct < overPct then
      some { id := "water-" ++ w.date, type := "water",
             score := overPct * cfg.prioWaterWeight,
             signal := getWaterSignal cfg w.actual w.nominal,
             value := overPct, unit := "%", date := w.date }
    else none
  else none

/-- The productivity arm of the priority loop: one item per day whose drop
below target exceeds the productivity yellow threshold, scored
`dropPct * productivityDropWeight`. -/
def mkProductivityItem (cfg : SignalThresholds) (p : ProdDay) : Option PriorityItem :=
  let dropPct := (cfg.prodTargetPct - p.avgPct) / cfg.prodTargetPct * 100
  if cfg.prodYellowPct < dropPct then
    some { id := "productivity-" ++ p.date, type := "productivity",
           score := dropPct * cfg.prioProdWeight,
           signal := getProductivitySignal cfg p.avgPct cfg.prodTargetPct,
           value := dropPct, unit := "%", date := p.date }
  else none

/-- Stable insertion for the descending-by-score sort: a new element goes
after every element of equal or higher score. -/
def insertScoreDesc (x : PriorityItem) : List PriorityItem → List PriorityItem
  | [] => [x]
  | y :: l => if y.score < x.score then x :: y :: l else y :: insertScoreDesc x l

/-- `priorityItems.sort((a, b) => b.score - a.score)`: ECMAScript `sort` is
stable, so the model is the stable descending-by-score insertion sort. -/
def sortScoreDesc (l : List PriorityItem) : List PriorityItem :=
  l.foldl (fun acc x => insertScoreDesc x acc) []

/-- The candidate priority items of `computeSignals`: the three per-metric
loops over the range-filtered day lists, appended in source order
(downtime, then water, then productivity). -/
def priorityCandidates (cfg : SignalThresholds) (data : DashboardData)
    (rng : Option (String × String)) : List PriorityItem :=
  (data.downtime.filter (fun d => inRange rng d.date)).filterMap (mkDowntimeItem cfg) ++
    (data.water.filter (fun w => inRange rng w.date)).filterMap (mkWaterItem cfg) ++
    (data.productivity.filter (fun p => inRange rng p.date)).filterMap
      (mkProductivityItem cfg)

/-- The `priorityItems` component of `computeSignals`: sort the merged
candidate list descending by score, then `slice(0, 10)`. -/
def computePriorityItems (cfg : SignalThresholds) (data : DashboardData)
    (rng : Option (String × String)) : List PriorityItem :=
  (sortScoreDesc (priorityCandidates cfg data rng)).take 10

/-- `DowntimeDailyRecord` of the downtime-history parser
(`parseDowntime`). -/
structure DowntimeDailyRecord where
  date : String
  equipment : String
  reasonText : Option String
  minutes : Option ℚ
  classification : Option String
deriving DecidableEq

/-- The six fixed equipment columns of the standard layout. -/
def EQUIPMENT_COLUMNS : List String :=
  ["МШР №1", "МШЦ №2", "МШР №3", "МШЦ №4", "ОФ", "ДСК"]

/-- JavaScript truthiness of a nullable string: non-null and non-empty. -/
def optStrTruthy : Option String → Bool
  | some s => s ≠ ""
  | none => false

/-- JavaScript truthiness of a nullable number: non-null and non-zero. -/
def optNumTruthy : Option ℚ → Bool
  | some q => q ≠ 0
  | none => false

/-- The emission test at both flush sites of `parseDowntime`:
`record.reasonText || record.minutes` under JavaScript truthiness — note
that a minutes value of exactly 0 is falsy. -/
def downtimeEmit (r : DowntimeDailyRecord) : Bool :=
  optStrTruthy r.reasonText || optNumTruthy r.minutes

/-- A flush of the pending map: emit, in map order, the records passing
the emission test. -/
def flushDowntime (pending : List (String × DowntimeDailyRecord)) :
    List DowntimeDailyRecord :=
  (pending.map (fun p => p.2)).filter downtimeEmit

/-- Classification validation: the eight accepted single letters,
normalized to the Latin form (the source's chained single-character
replaces reduce to this mapping on one-letter strings). -/
def normalizeClass (s : String) : Option String :=
  if s = "М" ∨ s = "M" then some "M"
  else if s = "Э" ∨ s = "E" then some "E"
  else if s = "Т" ∨ s = "T" then some "T"
  else if s = "П" ∨ s = "P" then some "P"
  else none

/-- Association-list update with JavaScript `Map.set` semantics: an
existing key keeps its position, a new key is appended. -/
def mapSet (m : List (String × DowntimeDailyRecord)) (k : String)
    (v : DowntimeDailyRecord) : List (String × DowntimeDailyRecord) :=
  if m.any (fun p => p.1 == k) then
    m.map (fun p => if p.1 == k then (k, v) else p)
  else m ++ [(k, v)]

/-- Association-list lookup (`Map.get`). -/
def mapGet (m : List (String × DowntimeDailyRecord)) (k : String) :
    Option DowntimeDailyRecord :=
  (m.find? (fun p => p.1 == k)).map (fun p => p.2)

/-- The loop state of `parseDowntime`'s row scan: the running date, the
pending records keyed by date-equipment, and the emitted output. -/
structure DowntimeState where
  lastDate : Option String
  pending : List (String × DowntimeDailyRecord)
  out : List DowntimeDailyRecord
deriving DecidableEq

/-- One equipment slot of one row of `parseDowntime`: read the reason,
minutes and classification cells at the slot's fixed offsets, skip the slot
when all three are absent, then either create (date row) or merge
(continuation row) the pending record under the date-equipment key. -/
def downtimeEquipSlot (dateStr : Option String) (currentDate : String)
    (row : List Cell) (eqIdx : ℕ) (equipment : String)
    (pending : List (String × DowntimeDailyRecord)) :
    List (String × DowntimeDailyRecord) :=
  let key := currentDate ++ "-" ++ equipment
  let reasonText := cleanText (getCellOrEmpty row (1 + eqIdx))
  let minutes := parseNumeric (getCell row (7 + eqIdx))
  let classification := jsUpperStr (cleanText (getCellOrEmpty row (13 + eqIdx)))
  let validClass := normalizeClass classification
  if reasonText = "" ∧ minutes = none ∧ validClass = none then pending
  else if dateStr.isSome then
    mapSet pending key
      ⟨currentDate, equipment, (if reasonText = "" then none else some reasonText),
        minutes, validClass⟩
  else
    match mapGet pending key with
    | some existing =>
      let newReason : String :=
        match existing.reasonText with
        | some t => t ++ "\n" ++ reasonText
        | none => reasonText
      let r1 := if reasonText = "" then existing
        else { existing with reasonText := some newReason }
      let r2 := if minutes.isSome then { r1 with minutes := minutes } else r1
      let r3 := if validClass.isSome then { r2 with classification := validClass } else r2
      mapSet pending key r3
    | none =>
      if reasonText ≠ "" ∨ minutes ≠ none then
        mapSet pending key
          ⟨currentDate, equipment, (if reasonText = "" then none else some reasonText),
            minutes, validClass⟩
      else pending

/-- One data row of `parseDowntime`: a truthy numeric date cell starts a
new date context and flushes the pending records of the previous one; then
each of the six equipment slots is processed against the current date
(the row's own date if new, otherwise the last seen one). -/
def downtimeProcessRow (dateCol : ℕ) (st : DowntimeState) (row : List Cell) :
    DowntimeState :=
  if row.length < 2 then st
  else
    let flushed : Option String × DowntimeState :=
      match getCell row dateCol with
      | .num q =>
        if q ≠ 0 then
          let ds := toISODateString (excelDateToJSDate q)
          (some ds,
            { lastDate := some ds, pending := [],
              out := st.out ++ flushDowntime st.pending })
        else (none, st)
      | _ => (none, st)
    let dateStr := flushed.1
    let st1 := flushed.2
    match (match dateStr with | some ds => some ds | none => st1.lastDate) with
    | none => st1
    | some currentDate =>
      let pending2 := (EQUIPMENT_COLUMNS.enum).foldl
        (fun p ie => downtimeEquipSlot dateStr currentDate row ie.1 ie.2 p) st1.pending
      { st1 with pending := pending2 }

/-- `parseDowntime`'s date-column discovery over the second header row:
the first column whose cleaned lowercased text is "дата", else column 0. -/
def findDateCol (headerRow : List Cell) : ℕ :=
  match headerRow.findIdx? (fun c => jsLowerStr (cleanText c) == "дата") with
  | some i => i
  | none => 0

/-- The state after scanning all data rows (row index 2 onward) of one
downtime-history sheet. -/
def downtimeFinalState (data : List (List Cell)) : DowntimeState :=
  (data.drop 2).foldl (downtimeProcessRow (findDateCol (data.getD 1 []))) ⟨none, [], []⟩

/-- The record stream of `parseDowntime` for one sheet: sheets with fewer
than three rows contribute nothing; otherwise the flushes made during the
scan followed by the end-of-sheet flush of the remaining pending map. -/
def parseDowntimeSheet (data : List (List Cell)) : List DowntimeDailyRecord :=
  if data.length < 3 then []
  else (downtimeFinalState data).out ++ flushDowntime (downtimeFinalState data).pending

/-- A downtime-history sheet whose single data row carries a date and a
zero minutes value for the first equipment, and nothing else. -/
def downtimeCexData : List (List Cell) :=
  [[], [Cell.str "дата"],
   [Cell.num 45000, Cell.str "", Cell.str "", Cell.str "", Cell.str "", Cell.str "",
    Cell.str "", Cell.num 0]]

/-- Example threshold values for the priority-ranking witness. -/
def prioCfgExample : SignalThresholds := ⟨100, 10, 20, 30, 60, 5, 15, 1, 2, 3⟩

/-- Example dashboard data: a single downtime day of 100 minutes. -/
def prioDataExample : DashboardData := ⟨[], [⟨"2026-01-01", 100⟩], []⟩

/-- C6: for every pair (actual, nominal), `getWaterSignal` agrees with the
specification's description: `nominal ≤ 0` yields green regardless of
`actual`; otherwise with `overPct = (actual - nominal)/nominal*100` the
signal is red when `overPct` exceeds the red threshold, yellow when it
exceeds only the yellow threshold, and green otherwise. -/
theorem getWaterSignal_eq_waterSignalSpec (cfg : SignalThresholds) (actual nominal : ℚ) :
    getWaterSignal cfg actual nominal = waterSignalSpec cfg actual nominal := by
  unfold getWaterSignal waterSignalSpec
  by_cases h0 : nominal ≤ 0
  · simp [h0]
  · simp only [h0, if_false]
    set overPct := (actual - nominal) / nominal * 100 with hov
    by_cases hr : cfg.waterRedOverPct < overPct
    · simp [hr]
    · have hle : overPct ≤ cfg.waterRedOverPct := le_of_not_lt hr
      by_cases hy : cfg.waterYellowOverPct < overPct
      · simp [hr, hy, hle]
      · simp [hr, hy]

/-- C5: for a fixed positive target, `getProductivitySignal` is antitone in
the average: decreasing the average never improves the signal in the order
green < yellow < red; and with non-negative thresholds an above-target
average always yields green. -/
theorem getProductivitySignal_monotone (cfg : SignalThresholds) (t a1 a2 : ℚ)
    (ht : 0 < t) (h12 : a2 ≤ a1) :
    signalOrd (getProductivitySignal cfg a1 t) ≤ signalOrd (getProductivitySignal cfg a2 t) ∧
    (0 ≤ cfg.prodYellowPct → 0 ≤ cfg.prodRedPct → t < a1 →
      getProductivitySignal cfg a1 t = SignalColor.green) := by
  have hdrop : (t - a1) / t * 100 ≤ (t - a2) / t * 100 := by
    have h1 : t - a1 ≤ t - a2 := by linarith
    have h2 : (t - a1) / t ≤ (t - a2) / t := (div_le_div_iff_of_pos_right ht).mpr h1
    linarith [h2]
  constructor
  · unfold getProductivitySignal
    simp only []
    set d1 := (t - a1) / t * 100 with hd1
    set d2 := (t - a2) / t * 100 with hd2
    split_ifs with h1 h2 h3 h4 h5 <;> simp [signalOrd] <;> linarith
  · intro hy hr hta
    unfold getProductivitySignal
    have hneg : (t - a1) / t * 100 < 0 := by
      have : t - a1 < 0 := by linarith
      have hq : (t - a1) / t < 0 := div_neg_of_neg_of_pos this ht
      linarith
    have h1 : ¬ cfg.prodRedPct < (t - a1) / t * 100 := by
      intro h; linarith
    have h2 : ¬ cfg.prodYellowPct < (t - a1) / t * 100 := by
      intro h; linarith
    simp [h1, h2]

/-- Witness for C5 at a concrete input: target 100, averages 95 ≥ 90 and an
above-target average 105 yields green (thresholds 10 and 20). -/
theorem getProductivitySignal_monotone_witness :
    signalOrd (getProductivitySignal ⟨100, 10, 20, 0, 0, 0, 0, 1, 1, 1⟩ 95 100) ≤
      signalOrd (getProductivitySignal ⟨100, 10, 20, 0, 0, 0, 0, 1, 1, 1⟩ 90 100) ∧
    (0 ≤ (10 : ℚ) → 0 ≤ (20 : ℚ) → (100 : ℚ) < 105 →
      getProductivitySignal ⟨100, 10, 20, 0, 0, 0, 0, 1, 1, 1⟩ 105 100 = SignalColor.green) := by
  have h := getProductivitySignal_monotone ⟨100, 10, 20, 0, 0, 0, 0, 1, 1, 1⟩ 100 105 90
    (by norm_num) (by norm_num)
  have h2 := getProductivitySignal_monotone ⟨100, 10, 20, 0, 0, 0, 0, 1, 1, 1⟩ 100 95 90
    (by norm_num) (by norm_num)
  exact ⟨h2.1, h.2⟩

/-- C8: `excelSerialToDayNumber` is monotone: for serials `s1 < s2` the
derived calendar day of `s1` is at most that of `s2`, and the two serials
derive the same calendar day exactly when they lie within the same integer
day. -/
theorem excelSerialToDayNumber_monotone (s1 s2 : ℚ) (h : s1 < s2) :
    excelSerialToDayNumber s1 ≤ excelSerialToDayNumber s2 ∧
    (excelSerialToDayNumber s1 = excelSerialToDayNumber s2 ↔ ⌊s1⌋ = ⌊s2⌋) := by
  have key : ∀ s : ℚ, excelSerialToDayNumber s = -25567 + ⌊s⌋ := by
    intro s
    unfold excelSerialToDayNumber utcDayNumber excelDateToJSDate excelEpochMs msPerDay
    have hq : (-2208988800000 + s * 86400000) / 86400000 = ((-25567 : ℤ) : ℚ) + s := by
      push_cast
      field_simp
      ring
    rw [hq, Int.floor_int_add]
  have hmono : ⌊s1⌋ ≤ ⌊s2⌋ := Int.floor_le_floor (le_of_lt h)
  rw [key, key]
  omega

/-- Witness for C8 at the serials 1/2 < 3/4 (both inside day 0). -/
theorem excelSerialToDayNumber_monotone_witness :
    excelSerialToDayNumber (1 / 2) ≤ excelSerialToDayNumber (3 / 4) ∧
    (excelSerialToDayNumber (1 / 2) = excelSerialToDayNumber (3 / 4) ↔
      ⌊(1 / 2 : ℚ)⌋ = ⌊(3 / 4 : ℚ)⌋) :=
  excelSerialToDayNumber_monotone (1 / 2) (3 / 4) (by norm_num)

/-- C9: for a fraction `f ∈ [0,1)`, `excelTimeToString f` is the "HH:MM"
string whose total minutes are `round (f * 1440) % 1440` — the time of day
nearest to `f` to the minute, with a full day wrapping to "00:00" — where
HH lies in [0,23] and MM in [0,59], each zero-padded to two digits. -/
theorem excelTimeToString_spec (f : ℚ) (h0 : 0 ≤ f) (h1 : f < 1) :
    excelTimeToString f =
      padStart2 (toString ((round (f * 1440)).toNat % 1440 / 60)) ++ ":" ++
        padStart2 (toString ((round (f * 1440)).toNat % 1440 % 60)) ∧
    (round (f * 1440)).toNat % 1440 / 60 ≤ 23 ∧
    (round (f * 1440)).toNat % 1440 % 60 ≤ 59 := by
  have hassoc : f * 24 * 60 = f * 1440 := by ring
  have hge : (0 : ℤ) ≤ round (f * 1440) := by
    rw [round_eq, Int.le_floor]
    push_cast
    nlinarith
  have hle : round (f * 1440) ≤ 1440 := by
    rw [round_eq]
    have hlt : f * 1440 + 1 / 2 < ((1441 : ℤ) : ℚ) := by push_cast; nlinarith
    have := Int.floor_lt.mpr hlt
    omega
  obtain ⟨m, hm⟩ : ∃ m : ℕ, round (f * 1440) = (m : ℤ) :=
    ⟨(round (f * 1440)).toNat, (Int.toNat_of_nonneg hge).symm⟩
  have hm1440 : m ≤ 1440 := by rw [hm] at hle; exact_mod_cast hle
  have htn : (round (f * 1440)).toNat = m := by rw [hm]; exact Int.toNat_natCast m
  have hcode : excelTimeToString f =
      padStart2 (toString (m / 60 % 24)) ++ ":" ++ padStart2 (toString (m % 60)) := by
    unfold excelTimeToString
    rw [hassoc, hm]
    have hfd : Int.fdiv ((m : ℤ)) 60 = ((m / 60 : ℕ) : ℤ) := (Int.ofNat_fdiv m 60).symm
    simp only [hfd]
    rfl
  rw [hcode, htn]
  refine ⟨?_, by omega, by omega⟩
  have e1 : m / 60 % 24 = m % 1440 / 60 := by omega
  have e2 : m % 60 = m % 1440 % 60 := by omega
  rw [e1, e2]

/-- Witness for C9 at f = 1/2 (noon). -/
theorem excelTimeToString_spec_witness :
    excelTimeToString (1 / 2) =
      padStart2 (toString ((round ((1 / 2 : ℚ) * 1440)).toNat % 1440 / 60)) ++ ":" ++
        padStart2 (toString ((round ((1 / 2 : ℚ) * 1440)).toNat % 1440 % 60)) ∧
    (round ((1 / 2 : ℚ) * 1440)).toNat % 1440 / 60 ≤ 23 ∧
    (round ((1 / 2 : ℚ) * 1440)).toNat % 1440 % 60 ≤ 59 :=
  excelTimeToString_spec (1 / 2) (by norm_num) (by norm_num)

/-- A non-empty pattern never occurs inside the empty character list. -/
theorem strContainsAux_nil_of_ne (p : List Char) (hp : p ≠ []) :
    strContainsAux p [] = false := by
  cases p with
  | nil => exact absurd rfl hp
  | cons c cs => rfl

/-- A non-empty keyword never matches the empty text. -/
theorem jsIncludes_empty_text (kw : String) (hkw : kw ≠ "") :
    jsIncludes "" kw = false := by
  have hd : (jsLowerStr kw).data ≠ [] := by
    intro h
    apply hkw
    have hmap : kw.data.map jsLowerChar = [] := h
    have hnil : kw.data = [] := List.map_eq_nil_iff.mp hmap
    cases kw
    simp_all
  exact strContainsAux_nil_of_ne _ hd

/-- The tier-collection loop collects exactly the matching keywords,
first occurrence of each kept, relative to the incoming seen-set. -/
theorem collectTier_eq (text : String) (sev : HazardSeverity) (l seen : List String) :
    collectTier text sev l seen =
      (dedupFirstAux (l.filter (fun kw => jsIncludes text kw)) seen).map
        (fun kw => ⟨text, sev, kw⟩) := by
  induction l generalizing seen with
  | nil => rfl
  | cons a l ih =>
    by_cases hm : jsIncludes text a
    · by_cases hs : a ∈ seen
      · have hs' : seen.contains a = true := List.elem_iff.mpr hs
        simp [collectTier, dedupFirstAux, hm, hs, hs', ih]
      · have hs' : ¬ seen.contains a = true := fun h => hs (List.elem_iff.mp h)
        simp [collectTier, dedupFirstAux, hm, hs, hs', ih]
    · simp only [Bool.not_eq_true] at hm
      simp [collectTier, dedupFirstAux, hm, ih]

/-- C2: the hazard detector implements the strict tiered policy: one high
entry for the first matching high keyword in list order; otherwise one
entry per distinct matching medium keyword; otherwise one entry per
distinct matching low keyword; otherwise nothing — and all entries of one
call share a single tier.  (The hypotheses rule out an empty string being
configured as a keyword.) -/
theorem detectHazardsFromText_tiering (cfg : HazardKeywordConfig) (text : String)
    (hh : "" ∉ cfg.high) (hm : "" ∉ cfg.medium) (hl : "" ∉ cfg.low) :
    detectHazardsFromText cfg text = expectedHazards cfg text ∧
    ∀ h1 ∈ detectHazardsFromText cfg text, ∀ h2 ∈ detectHazardsFromText cfg text,
      h1.severity = h2.severity := by
  have heq : detectHazardsFromText cfg text = expectedHazards cfg text := by
    by_cases ht : text = ""
    · subst ht
      have hne : ∀ (l : List String), "" ∉ l →
          l.filter (fun kw => jsIncludes "" kw) = [] := by
        intro l hni
        apply List.filter_eq_nil_iff.mpr
        intro kw hkwmem
        have hkw : kw ≠ "" := fun h => hni (h ▸ hkwmem)
        simp [jsIncludes_empty_text kw hkw]
      have hfind : cfg.high.find? (fun kw => jsIncludes "" kw) = none := by
        apply List.find?_eq_none.mpr
        intro kw hkwmem
        have hkw : kw ≠ "" := fun h => hh (h ▸ hkwmem)
        simp [jsIncludes_empty_text kw hkw]
      unfold detectHazardsFromText expectedHazards
      simp [hfind, hne cfg.medium hm, hne cfg.low hl, dedupFirst, dedupFirstAux]
    · unfold detectHazardsFromText expectedHazards
      simp only [ht, if_false]
      cases hfind : cfg.high.find? (fun kw => jsIncludes text kw) with
      | some kw => rfl
      | none =>
        rw [collectTier_eq, collectTier_eq]
        unfold dedupFirst
        cases hdf : dedupFirstAux (cfg.medium.filter (fun kw => jsIncludes text kw)) [] with
        | nil => simp
        | cons m med => simp
  refine ⟨heq, ?_⟩
  rw [heq]
  unfold expectedHazards
  cases cfg.high.find? (fun kw => jsIncludes text kw) with
  | some kw =>
    intro h1 h1m h2 h2m
    have e1 : h1 = ⟨text, .high, kw⟩ := by simpa using h1m
    have e2 : h2 = ⟨text, .high, kw⟩ := by simpa using h2m
    rw [e1, e2]
  | none =>
    cases dedupFirst (cfg.medium.filter (fun kw => jsIncludes text kw)) with
    | nil =>
      intro h1 h1m h2 h2m
      obtain ⟨k1, _, rfl⟩ := List.mem_map.mp h1m
      obtain ⟨k2, _, rfl⟩ := List.mem_map.mp h2m
      rfl
    | cons m med =>
      intro h1 h1m h2 h2m
      obtain ⟨k1, _, rfl⟩ := List.mem_map.mp h1m
      obtain ⟨k2, _, rfl⟩ := List.mem_map.mp h2m
      rfl

/-- Witness for C2 on a concrete configuration and text containing a
medium keyword. -/
theorem detectHazardsFromText_tiering_witness :
    detectHazardsFromText ⟨["пожар"], ["утечка", "перегрев"], ["шум"]⟩ "замечен перегрев" =
      expectedHazards ⟨["пожар"], ["утечка", "перегрев"], ["шум"]⟩ "замечен перегрев" ∧
    ∀ h1 ∈ detectHazardsFromText ⟨["пожар"], ["утечка", "перегрев"], ["шум"]⟩
        "замечен перегрев",
      ∀ h2 ∈ detectHazardsFromText ⟨["пожар"], ["утечка", "перегрев"], ["шум"]⟩
          "замечен перегрев",
        h1.severity = h2.severity :=
  detectHazardsFromText_tiering ⟨["пожар"], ["утечка", "перегрев"], ["шум"]⟩
    "замечен перегрев" (by decide) (by decide) (by decide)

/-- `mergeSeed` over an empty run is the seed. -/
theorem mergeSeed_nil (o : Option WaterDailyRecord) : mergeSeed o [] = o := by
  cases o with
  | some e => rfl
  | none => rfl

/-- `mergeSeed` splits along list concatenation. -/
theorem mergeSeed_append (o : Option WaterDailyRecord) (l1 l2 : List WaterDailyRecord) :
    mergeSeed o (l1 ++ l2) = mergeSeed (mergeSeed o l1) l2 := by
  cases o with
  | some e => simp [mergeSeed, mergeRun, List.foldl_append]
  | none =>
    cases l1 with
    | nil => simp [mergeSeed]
    | cons r l => simp [mergeSeed, mergeRun, List.foldl_append]

/-- Coalescing the two most recent values commutes with `lastSome`. -/
theorem lastSome_coalesce (a b : Option α) (l : List (Option α)) :
    lastSome (jsCoalesce b a :: l) = lastSome (a :: b :: l) := by
  cases hl : lastSome l with
  | some x => simp [lastSome, hl]
  | none => cases b <;> simp [lastSome, hl, jsCoalesce]

/-- The merged run's meter reading is the last non-null one. -/
theorem mergeRun_meterReading (e : WaterDailyRecord) (l : List WaterDailyRecord) :
    (mergeRun e l).meterReading =
      lastSome (e.meterReading :: l.map (fun x => x.meterReading)) := by
  induction l generalizing e with
  | nil => simp [mergeRun, lastSome]
  | cons r l ih =>
    have h1 : mergeRun e (r :: l) = mergeRun (mergeWaterRecord e r) l := rfl
    rw [h1, ih]
    exact lastSome_coalesce _ _ _

/-- The merged run's daily actual is the last non-null one. -/
theorem mergeRun_actualDaily (e : WaterDailyRecord) (l : List WaterDailyRecord) :
    (mergeRun e l).actualDaily =
      lastSome (e.actualDaily :: l.map (fun x => x.actualDaily)) := by
  induction l generalizing e with
  | nil => simp [mergeRun, lastSome]
  | cons r l ih =>
    have h1 : mergeRun e (r :: l) = mergeRun (mergeWaterRecord e r) l := rfl
    rw [h1, ih]
    exact lastSome_coalesce _ _ _

/-- The merged run's hourly actual is the last non-null one. -/
theorem mergeRun_actualHourly (e : WaterDailyRecord) (l : List WaterDailyRecord) :
    (mergeRun e l).actualHourly =
      lastSome (e.actualHourly :: l.map (fun x => x.actualHourly)) := by
  induction l generalizing e with
  | nil => simp [mergeRun, lastSome]
  | cons r l ih =>
    have h1 : mergeRun e (r :: l) = mergeRun (mergeWaterRecord e r) l := rfl
    rw [h1, ih]
    exact lastSome_coalesce _ _ _

/-- The merged run's nominal is the last non-null one. -/
theorem mergeRun_nominalDaily (e : WaterDailyRecord) (l : List WaterDailyRecord) :
    (mergeRun e l).nominalDaily =
      lastSome (e.nominalDaily :: l.map (fun x => x.nominalDaily)) := by
  induction l generalizing e with
  | nil => simp [mergeRun, lastSome]
  | cons r l ih =>
    have h1 : mergeRun e (r :: l) = mergeRun (mergeWaterRecord e r) l := rfl
    rw [h1, ih]
    exact lastSome_coalesce _ _ _

/-- The merged run's month label is the last non-null one. -/
theorem mergeRun_monthLabel (e : WaterDailyRecord) (l : List WaterDailyRecord) :
    (mergeRun e l).monthLabel =
      lastSome (e.monthLabel :: l.map (fun x => x.monthLabel)) := by
  induction l generalizing e with
  | nil => simp [mergeRun, lastSome]
  | cons r l ih =>
    have h1 : mergeRun e (r :: l) = mergeRun (mergeWaterRecord e r) l := rfl
    rw [h1, ih]
    exact lastSome_coalesce _ _ _

/-- A `Map.set` on a present key keeps the key multiset of the map. -/
theorem dedupeWaterStep_dates_present (acc : List WaterDailyRecord) (r : WaterDailyRecord)
    (h : acc.any (fun e => e.date == r.date) = true) :
    (dedupeWaterStep acc r).map (fun e => e.date) = acc.map (fun e => e.date) := by
  unfold dedupeWaterStep
  rw [if_pos h, List.map_map]
  apply List.map_congr_left
  intro e _
  by_cases he : e.date = r.date
  · simp [he, mergeWaterRecord]
  · simp [he]

/-- A `Map.set` on an absent key appends it. -/
theorem dedupeWaterStep_dates_absent (acc : List WaterDailyRecord) (r : WaterDailyRecord)
    (h : ¬ acc.any (fun e => e.date == r.date) = true) :
    (dedupeWaterStep acc r).map (fun e => e.date) =
      acc.map (fun e => e.date) ++ [r.date] := by
  unfold dedupeWaterStep
  rw [if_neg h]
  simp

/-- How one deduplication step transforms the record found at a date. -/
theorem dedupeWaterStep_find (acc : List WaterDailyRecord) (r : WaterDailyRecord) (d : String) :
    (dedupeWaterStep acc r).find? (fun e => e.date == d) =
      mergeSeed (acc.find? (fun e => e.date == d))
        (List.filter (fun x => x.date == d) [r]) := by
  by_cases hd : r.date = d
  · subst hd
    have hfil : List.filter (fun x => x.date == r.date) [r] = [r] := by simp
    rw [hfil]
    unfold dedupeWaterStep
    by_cases hany : acc.any (fun e => e.date == r.date) = true
    · rw [if_pos hany, List.find?_map]
      have hpf : ((fun e : WaterDailyRecord => e.date == r.date) ∘
          (fun e => if e.date == r.date then mergeWaterRecord e r else e)) =
          (fun e : WaterDailyRecord => e.date == r.date) := by
        funext e
        by_cases he : (e.date == r.date) = true
        · simp [Function.comp, he, mergeWaterRecord]
        · simp [Function.comp, he]
      rw [hpf]
      obtain ⟨x, hx, hpx⟩ := List.any_eq_true.mp hany
      cases hf : acc.find? (fun e => e.date == r.date) with
      | none => exact absurd hpx (List.find?_eq_none.mp hf x hx)
      | some e =>
        have hpe := List.find?_some hf
        simp only [beq_iff_eq] at hpe
        simp [hpe, mergeSeed, mergeRun]
    · rw [if_neg hany, List.find?_append]
      have hf : acc.find? (fun e => e.date == r.date) = none := by
        apply List.find?_eq_none.mpr
        intro x hx hpx
        exact hany (List.any_eq_true.mpr ⟨x, hx, hpx⟩)
      rw [hf]
      simp [mergeSeed, mergeRun, List.find?]
  · have hbd : (r.date == d) = false := beq_eq_false_iff_ne.mpr hd
    have hfil : List.filter (fun x => x.date == d) [r] = [] := by simp [hbd]
    rw [hfil, mergeSeed_nil]
    unfold dedupeWaterStep
    by_cases hany : acc.any (fun e => e.date == r.date) = true
    · rw [if_pos hany, List.find?_map]
      have hpf : ((fun e : WaterDailyRecord => e.date == d) ∘
          (fun e => if e.date == r.date then mergeWaterRecord e r else e)) =
          (fun e : WaterDailyRecord => e.date == d) := by
        funext e
        by_cases he : (e.date == r.date) = true
        · have heq : e.date = r.date := eq_of_beq he
          simp [Function.comp, he, mergeWaterRecord, heq]
        · simp [Function.comp, he]
      rw [hpf]
      cases hf : acc.find? (fun e => e.date == d) with
      | none => rfl
      | some e =>
        have hpe := List.find?_some hf
        simp only [beq_iff_eq] at hpe
        have hne : ¬ e.date = r.date := fun hcon => hd (hcon ▸ hpe)
        simp [hne, mergeSeed, mergeRun]
    · rw [if_neg hany, List.find?_append]
      have hfr : List.find? (fun e => e.date == d) [r] = none := by simp [hbd]
      rw [hfr]
      cases hf : acc.find? (fun e => e.date == d) <;> rfl

/-- Folding `dedupeWaterStep` keeps the date keys unique and records, at
every date, the merged run of input records with that date. -/
theorem dedupeWater_fold (rs : List WaterDailyRecord) :
    ∀ acc : List WaterDailyRecord, (acc.map (fun e => e.date)).Nodup →
      ((rs.foldl dedupeWaterStep acc).map (fun e => e.date)).Nodup ∧
      ∀ d, (rs.foldl dedupeWaterStep acc).find? (fun e => e.date == d) =
        mergeSeed (acc.find? (fun e => e.date == d))
          (rs.filter (fun x => x.date == d)) := by
  induction rs with
  | nil =>
    intro acc h
    exact ⟨h, fun d => by simp [mergeSeed_nil]⟩
  | cons r rs ih =>
    intro acc hnd
    have hnd' : ((dedupeWaterStep acc r).map (fun e => e.date)).Nodup := by
      by_cases hany : acc.any (fun e => e.date == r.date) = true
      · rw [dedupeWaterStep_dates_present acc r hany]; exact hnd
      · rw [dedupeWaterStep_dates_absent acc r hany]
        rw [List.nodup_append]
        refine ⟨hnd, List.nodup_singleton _, ?_⟩
        intro x hx hx2
        have hx2' : x = r.date := by simpa using hx2
        subst hx2'
        obtain ⟨e, he, hed⟩ := List.mem_map.mp hx
        exact hany (List.any_eq_true.mpr ⟨e, he, by simp [hed]⟩)
    obtain ⟨h1, h2⟩ := ih (dedupeWaterStep acc r) hnd'
    refine ⟨h1, fun d => ?_⟩
    have hfold : (r :: rs).foldl dedupeWaterStep acc =
        rs.foldl dedupeWaterStep (dedupeWaterStep acc r) := rfl
    rw [hfold, h2 d, dedupeWaterStep_find]
    have hsplit : (r :: rs).filter (fun x => x.date == d) =
        (List.filter (fun x => x.date == d) [r]) ++ rs.filter (fun x => x.date == d) := by
      by_cases hrd : (r.date == d) = true
      · simp [List.filter_cons, hrd]
      · simp [List.filter_cons, hrd]
    rw [hsplit, mergeSeed_append]

/-- With unique dates, `find?` at a member's date returns that member. -/
theorem find?_date_of_nodup (l : List WaterDailyRecord)
    (hnd : (l.map (fun e => e.date)).Nodup) (r : WaterDailyRecord) (hr : r ∈ l) :
    l.find? (fun e => e.date == r.date) = some r := by
  induction l with
  | nil => cases hr
  | cons a l ih =>
    rcases List.mem_cons.mp hr with rfl | hr'
    · exact List.find?_cons_of_pos _ (by simp)
    · have hadate : a.date ∉ l.map (fun e => e.date) := (List.nodup_cons.mp hnd).1
      have hne : ¬ ((fun e : WaterDailyRecord => e.date == r.date) a) = true := by
        intro hbeq
        exact hadate ((eq_of_beq hbeq) ▸ List.mem_map.mpr ⟨r, hr', rfl⟩)
      have hstep := @List.find?_cons_of_neg _
        (fun e : WaterDailyRecord => e.date == r.date) a l hne
      rw [hstep]
      exact ih (List.nodup_cons.mp hnd).2 hr'

/-- C1 (amended): `parseWater`'s by-date merge produces exactly one record
per distinct input date, and each output field is the LAST non-null value
among the same-date scanned rows (a later scan's non-null value replaces an
earlier one; a null never clobbers a populated field). -/
theorem dedupeWaterByDate_merge (rs : List WaterDailyRecord) :
    ((dedupeWaterByDate rs).map (fun e => e.date)).Nodup ∧
    (∀ d : String, (∃ r ∈ dedupeWaterByDate rs, r.date = d) ↔ ∃ r ∈ rs, r.date = d) ∧
    ∀ r ∈ dedupeWaterByDate rs,
      r.meterReading =
        lastSome ((rs.filter (fun x => x.date == r.date)).map (fun x => x.meterReading)) ∧
      r.actualDaily =
        lastSome ((rs.filter (fun x => x.date == r.date)).map (fun x => x.actualDaily)) ∧
      r.actualHourly =
        lastSome ((rs.filter (fun x => x.date == r.date)).map (fun x => x.actualHourly)) ∧
      r.nominalDaily =
        lastSome ((rs.filter (fun x => x.date == r.date)).map (fun x => x.nominalDaily)) ∧
      r.monthLabel =
        lastSome ((rs.filter (fun x => x.date == r.date)).map (fun x => x.monthLabel)) := by
  obtain ⟨hnd, hfind⟩ := dedupeWater_fold rs [] (by simp)
  have hout : dedupeWaterByDate rs = rs.foldl dedupeWaterStep [] := rfl
  refine ⟨hout ▸ hnd, ?_, ?_⟩
  · intro d
    constructor
    · intro ⟨r, hr, hrd⟩
      have hsome : ((rs.foldl dedupeWaterStep []).find? (fun e => e.date == d)).isSome :=
        List.find?_isSome.mpr ⟨r, hout ▸ hr, by simp [hrd]⟩
      rw [hfind d] at hsome
      cases hflt : rs.filter (fun x => x.date == d) with
      | nil => rw [hflt] at hsome; simp [mergeSeed] at hsome
      | cons f fl =>
        have hf : f ∈ rs.filter (fun x => x.date == d) := by rw [hflt]; exact List.mem_cons_self f fl
        have := List.mem_filter.mp hf
        exact ⟨f, this.1, by simpa using this.2⟩
    · intro ⟨r, hr, hrd⟩
      have hne : rs.filter (fun x => x.date == d) ≠ [] := by
        intro hcon
        have := List.filter_eq_nil_iff.mp hcon r hr
        simp [hrd] at this
      cases hflt : rs.filter (fun x => x.date == d) with
      | nil => exact absurd hflt hne
      | cons f fl =>
        have hm : (rs.foldl dedupeWaterStep []).find? (fun e => e.date == d) =
            some (mergeRun f fl) := by
          rw [hfind d, hflt]; simp [mergeSeed]
        refine ⟨mergeRun f fl, hout ▸ List.mem_of_find?_eq_some hm, ?_⟩
        have := List.find?_some hm
        simpa using this
  · intro r hr
    have hr' : r ∈ rs.foldl dedupeWaterStep [] := hout ▸ hr
    have hfr : (rs.foldl dedupeWaterStep []).find? (fun e => e.date == r.date) = some r :=
      find?_date_of_nodup _ hnd r hr'
    rw [hfind r.date] at hfr
    cases hflt : rs.filter (fun x => x.date == r.date) with
    | nil => rw [hflt] at hfr; simp [mergeSeed] at hfr
    | cons f fl =>
      rw [hflt] at hfr
      have hfr' : mergeRun f fl = r := by
        have : some (mergeRun f fl) = some r := by rw [← hfr]; simp [mergeSeed]
        exact Option.some.inj this
      have hmap : ∀ g : WaterDailyRecord → Option ℚ,
          ((f :: fl).map g) = g f :: fl.map g := fun g => rfl
      refine ⟨?_, ?_, ?_, ?_, ?_⟩
      · rw [← hfr', mergeRun_meterReading]; rfl
      · rw [← hfr', mergeRun_actualDaily]; rfl
      · rw [← hfr', mergeRun_actualHourly]; rfl
      · rw [← hfr', mergeRun_nominalDaily]; rfl
      · rw [← hfr', mergeRun_monthLabel]; rfl

/-- C1 counterexample: the claim's "first non-null value per field wins"
reading is false — with two same-date rows carrying meter readings 1 and 2
in scan order, the merged record keeps 2 (the later one), not 1. -/
theorem dedupeWaterByDate_not_firstSome :
    ¬ (∀ rs : List WaterDailyRecord, ∀ r ∈ dedupeWaterByDate rs,
        r.meterReading =
          firstSome ((rs.filter (fun x => x.date == r.date)).map (fun x => x.meterReading))) := by
  intro h
  have hmem : (⟨"2026-01-31", some 2, some 80, none, none, some "февраль 2026 г."⟩ :
      WaterDailyRecord) ∈ dedupeWaterByDate [waterCexA, waterCexB] := by decide
  have := h [waterCexA, waterCexB] _ hmem
  revert this
  decide

/-- Witness for C1 (amended) on the concrete duplicate-date example. -/
theorem dedupeWaterByDate_merge_witness :
    (∃ r ∈ dedupeWaterByDate [waterCexA, waterCexB], r.date = "2026-01-31") ↔
      ∃ r ∈ [waterCexA, waterCexB], r.date = "2026-01-31" :=
  (dedupeWaterByDate_merge [waterCexA, waterCexB]).2.1 "2026-01-31"

/-- Every record a single hour-row emits has its hour in [0, 24). -/
theorem techHourRow_hour_bounds (dateStr : String) (shiftNumber : ℕ) (row : List Cell)
    (r : TechProductivityRecord) (hr : r ∈ techHourRow dateStr shiftNumber row) :
    0 ≤ r.hour ∧ r.hour < 24 := by
  unfold techHourRow at hr
  by_cases h1 : row.length < 2
  · simp [h1] at hr
  · by_cases h2 : isSredneeCell (getCell row 0) = true
    · simp [h1, h2] at hr
    · simp only [h1, h2, if_false, Bool.false_eq_true] at hr
      set hour0 : ℚ := (parseNumeric (getCell row 0)).getD (-1) with hh0
      by_cases h3 : hour0 < 0 ∨ 24 < hour0
      · simp [h3] at hr
      · simp only [h3, if_false] at hr
        push_neg at h3
        obtain ⟨millIdx, _, hmi⟩ := List.mem_filterMap.mp hr
        cases hv : parseNumeric (getCell row millIdx) with
        | none => rw [hv] at hmi; simp at hmi
        | some v =>
          rw [hv] at hmi
          have hv' := Option.some.inj hmi
          have hhour : r.hour = if hour0 = 24 then 0 else hour0 := by rw [← hv']
          rw [hhour]
          by_cases h24 : hour0 = 24
          · simp [h24]
          · simp only [h24, if_false]
            exact ⟨h3.1, lt_of_le_of_ne h3.2 h24⟩

/-- C7 (amended): in the shift-journal hourly scan, a row whose hour label
parses to a number outside [0,24] contributes no record; a label of exactly
24 is recorded as hour 0; and every emitted record has its hour in the
half-open range [0,24) — but not necessarily in [0,23], since a fractional
label such as 23.5 is accepted verbatim. -/
theorem parseTechProductivityRows_hour_range (data : List (List Cell))
    (dateStr : String) (shiftNumber : ℕ) :
    (∀ r ∈ parseTechProductivityRows data dateStr shiftNumber,
        0 ≤ r.hour ∧ r.hour < 24) ∧
    (∀ row : List Cell, ∀ h : ℚ, parseNumeric (getCell row 0) = some h →
        (h < 0 ∨ 24 < h) → techHourRow dateStr shiftNumber row = []) ∧
    (∀ row : List Cell, parseNumeric (getCell row 0) = some 24 →
        ∀ r ∈ techHourRow dateStr shiftNumber row, r.hour = 0) := by
  refine ⟨?_, ?_, ?_⟩
  · intro r hr
    obtain ⟨row, _, hrow⟩ := List.mem_flatMap.mp hr
    exact techHourRow_hour_bounds dateStr shiftNumber row r hrow
  · intro row h hp hout
    unfold techHourRow
    by_cases h1 : row.length < 2
    · simp [h1]
    · by_cases h2 : isSredneeCell (getCell row 0) = true
      · simp [h1, h2]
      · have hd : (parseNumeric (getCell row 0)).getD (-1) = h := by rw [hp]; rfl
        simp [h1, h2, hd, hout]
  · intro row hp r hr
    unfold techHourRow at hr
    by_cases h1 : row.length < 2
    · simp [h1] at hr
    · by_cases h2 : isSredneeCell (getCell row 0) = true
      · simp [h1, h2] at hr
      · have hd : (parseNumeric (getCell row 0)).getD (-1) = 24 := by rw [hp]; rfl
        simp only [h1, h2, if_false, Bool.false_eq_true, hd] at hr
        have hcond : ¬ ((24 : ℚ) < 0 ∨ (24 : ℚ) < 24) := by norm_num
        simp only [hcond, if_false] at hr
        obtain ⟨millIdx, _, hmi⟩ := List.mem_filterMap.mp hr
        cases hv : parseNumeric (getCell row millIdx) with
        | none => rw [hv] at hmi; simp at hmi
        | some v =>
          rw [hv] at hmi
          have hv' := Option.some.inj hmi
          rw [← hv']
          simp

/-- C7 counterexample: a row with the fractional hour label 23.5 emits a
record whose hour exceeds 23, so "every emitted hour lies in [0,23]" fails
on the code. -/
theorem parseTechProductivityRows_hour_above_23 :
    ¬ (∀ r ∈ parseTechProductivityRows techCexRows "2026-01-01" 1, r.hour ≤ 23) := by
  decide

/-- Witness for C7 (amended): the 23.5-hour record produced from the
example rows satisfies the amended bounds. -/
theorem parseTechProductivityRows_hour_range_witness :
    0 ≤ (⟨"2026-01-01", 1, mkRat 47 2, 1, 80⟩ : TechProductivityRecord).hour ∧
      (⟨"2026-01-01", 1, mkRat 47 2, 1, 80⟩ : TechProductivityRecord).hour < 24 :=
  (parseTechProductivityRows_hour_range techCexRows "2026-01-01" 1).1 _ (by decide)

/-- C10: the sheet-label parser resolves every two-digit year by
unconditionally adding 2000 (no 1950 pivot) — "01.01.99см1" yields year
2099 — while the general Russian-date parser pivots: years below 50 go to
2000+, years 50-99 to 1900+ ("01.01.99" yields 1999). -/
theorem parseSheetName_year_no_pivot (name : String) (d m y sn : ℕ)
    (hmatch : findSheetName name.data = some (d, m, y, sn)) (hy : y < 100) :
    (parseSheetName name).date = some ⟨(y : ℤ) + 2000, (m : ℤ) - 1, d⟩ ∧
    (∀ s : String, ∀ d2 m2 y2 : ℕ, findRuDate s.data = some (d2, m2, y2) → y2 < 100 →
      parseRussianDate s =
        some ⟨if y2 < 50 then (y2 : ℤ) + 2000 else (y2 : ℤ) + 1900, (m2 : ℤ) - 1, d2⟩) ∧
    parseSheetName "01.01.99см1" = ⟨some ⟨2099, 0, 1⟩, some 1⟩ ∧
    parseRussianDate "01.01.99" = some ⟨1999, 0, 1⟩ := by
  refine ⟨?_, ?_, by decide, by decide⟩
  · unfold parseSheetName
    rw [hmatch]
    simp [resolveSheetYear, hy]
  · intro s d2 m2 y2 hfound hy2
    have hs : ¬ s = "" := by
      intro hcon
      subst hcon
      rw [show findRuDate "".data = none from rfl] at hfound
      exact Option.noConfusion hfound
    unfold parseRussianDate
    rw [if_neg hs, hfound]
    simp [resolveRussianYear, hy2]

/-- Witness for C10 at the sheet name "01.01.99см1". -/
theorem parseSheetName_year_no_pivot_witness :
    (parseSheetName "01.01.99см1").date = some ⟨(99 : ℤ) + 2000, (1 : ℤ) - 1, 1⟩ :=
  (parseSheetName_year_no_pivot "01.01.99см1" 1 1 99 1 (by decide) (by decide)).1

/-- Stable insertion is, up to permutation, insertion at the head. -/
theorem insertScoreDesc_perm (x : PriorityItem) (l : List PriorityItem) :
    (insertScoreDesc x l).Perm (x :: l) := by
  induction l with
  | nil => exact List.Perm.refl _
  | cons y l ih =>
    unfold insertScoreDesc
    by_cases h : y.score < x.score
    · rw [if_pos h]
    · rw [if_neg h]
      exact (ih.cons y).trans (List.Perm.swap x y l)

/-- The stable descending sort permutes its input. -/
theorem sortScoreDesc_perm (l : List PriorityItem) : (sortScoreDesc l).Perm l := by
  have key : ∀ (l acc : List PriorityItem),
      (l.foldl (fun acc x => insertScoreDesc x acc) acc).Perm (acc ++ l) := by
    intro l
    induction l with
    | nil => intro acc; simp
    | cons x l ih =>
      intro acc
      have h1 := ih (insertScoreDesc x acc)
      have h2 : (insertScoreDesc x acc ++ l).Perm ((x :: acc) ++ l) :=
        (insertScoreDesc_perm x acc).append_right l
      have h3 : ((x :: acc) ++ l).Perm (acc ++ x :: l) := by
        simpa using (@List.perm_middle _ x acc l).symm
      exact (h1.trans h2).trans h3
  simpa using key l []

/-- Stable insertion preserves the descending-by-score invariant. -/
theorem insertScoreDesc_pairwise (x : PriorityItem) (l : List PriorityItem)
    (h : l.Pairwise (fun a b => b.score ≤ a.score)) :
    (insertScoreDesc x l).Pairwise (fun a b => b.score ≤ a.score) := by
  induction l with
  | nil => simp [insertScoreDesc]
  | cons y l ih =>
    obtain ⟨hy, hl⟩ := List.pairwise_cons.mp h
    unfold insertScoreDesc
    by_cases hc : y.score < x.score
    · rw [if_pos hc]
      apply List.pairwise_cons.mpr
      refine ⟨?_, h⟩
      intro z hz
      rcases List.mem_cons.mp hz with rfl | hz'
      · exact le_of_lt hc
      · exact le_trans (hy z hz') (le_of_lt hc)
    · rw [if_neg hc]
      apply List.pairwise_cons.mpr
      refine ⟨?_, ih hl⟩
      intro z hz
      have hz' := (insertScoreDesc_perm x l).mem_iff.mp hz
      rcases List.mem_cons.mp hz' with rfl | hz''
      · exact le_of_not_lt hc
      · exact hy z hz''

/-- The stable descending sort is sorted descending by score. -/
theorem sortScoreDesc_pairwise (l : List PriorityItem) :
    (sortScoreDesc l).Pairwise (fun a b => b.score ≤ a.score) := by
  have key : ∀ (l acc : List PriorityItem),
      acc.Pairwise (fun a b => b.score ≤ a.score) →
      (l.foldl (fun acc x => insertScoreDesc x acc) acc).Pairwise
        (fun a b => b.score ≤ a.score) := by
    intro l
    induction l with
    | nil => intro acc h; exact h
    | cons x l ih => intro acc h; exact ih _ (insertScoreDesc_pairwise x acc h)
  exact key l [] (by simp)

/-- C4: the priority ranking of `computeSignals` — the result is sorted
descending by score and holds at most 10 items; every returned item is one
of the per-metric candidates; when at most 10 candidates exist they all
survive (truncation happens after the cross-metric merge, not per metric);
and every in-range day exceeding its metric's threshold contributes a
candidate with the specified `score = metric × weight`. -/
theorem computePriorityItems_spec (cfg : SignalThresholds) (data : DashboardData)
    (rng : Option (String × String)) :
    (computePriorityItems cfg data rng).Pairwise (fun a b => b.score ≤ a.score) ∧
    (computePriorityItems cfg data rng).length =
      min 10 (priorityCandidates cfg data rng).length ∧
    (∀ it ∈ computePriorityItems cfg data rng, it ∈ priorityCandidates cfg data rng) ∧
    ((priorityCandidates cfg data rng).length ≤ 10 →
      (computePriorityItems cfg data rng).Perm (priorityCandidates cfg data rng)) ∧
    (∀ d ∈ data.downtime, inRange rng d.date = true →
      cfg.downGreenMax < d.totalMinutes →
      ∃ it ∈ priorityCandidates cfg data rng, it.type = "downtime" ∧ it.date = d.date ∧
        it.score = d.totalMinutes * cfg.prioDowntimeWeight) ∧
    (∀ w ∈ data.water, inRange rng w.date = true → 0 < w.nominal →
      cfg.waterYellowOverPct < (w.actual - w.nominal) / w.nominal * 100 →
      ∃ it ∈ priorityCandidates cfg data rng, it.type = "water" ∧ it.date = w.date ∧
        it.score = (w.actual - w.nominal) / w.nominal * 100 * cfg.prioWaterWeight) ∧
    (∀ p ∈ data.productivity, inRange rng p.date = true →
      cfg.prodYellowPct < (cfg.prodTargetPct - p.avgPct) / cfg.prodTargetPct * 100 →
      ∃ it ∈ priorityCandidates cfg data rng, it.type = "productivity" ∧ it.date = p.date ∧
        it.score = (cfg.prodTargetPct - p.avgPct) / cfg.prodTargetPct * 100 *
          cfg.prioProdWeight) := by
  refine ⟨?_, ?_, ?_, ?_, ?_, ?_, ?_⟩
  · exact List.Pairwise.sublist (List.take_sublist _ _) (sortScoreDesc_pairwise _)
  · unfold computePriorityItems
    rw [List.length_take, (sortScoreDesc_perm _).length_eq]
  · intro it hit
    have h1 : it ∈ sortScoreDesc (priorityCandidates cfg data rng) :=
      (List.take_sublist _ _).subset hit
    exact (sortScoreDesc_perm _).mem_iff.mp h1
  · intro hlen
    unfold computePriorityItems
    rw [List.take_of_length_le (by rw [(sortScoreDesc_perm _).length_eq]; exact hlen)]
    exact sortScoreDesc_perm _
  · intro d hd hin hgt
    refine ⟨{ id := "downtime-" ++ d.date, type := "downtime",
              score := d.totalMinutes * cfg.prioDowntimeWeight,
              signal := getDowntimeSignal cfg d.totalMinutes,
              value := d.totalMinutes, unit := "мин", date := d.date },
            ?_, rfl, rfl, rfl⟩
    unfold priorityCandidates
    refine List.mem_append.mpr (Or.inl (List.mem_append.mpr (Or.inl ?_)))
    apply List.mem_filterMap.mpr
    exact ⟨d, List.mem_filter.mpr ⟨hd, hin⟩, by simp [mkDowntimeItem, hgt]⟩
  · intro w hw hin hpos hover
    refine ⟨{ id := "water-" ++ w.date, type := "water",
              score := (w.actual - w.nominal) / w.nominal * 100 * cfg.prioWaterWeight,
              signal := getWaterSignal cfg w.actual w.nominal,
              value := (w.actual - w.nominal) / w.nominal * 100, unit := "%",
              date := w.date },
            ?_, rfl, rfl, rfl⟩
    unfold priorityCandidates
    refine List.mem_append.mpr (Or.inl (List.mem_append.mpr (Or.inr ?_)))
    apply List.mem_filterMap.mpr
    exact ⟨w, List.mem_filter.mpr ⟨hw, hin⟩, by simp [mkWaterItem, hpos, hover]⟩
  · intro p hp hin hdrop
    refine ⟨{ id := "productivity-" ++ p.date, type := "productivity",
              score := (cfg.prodTargetPct - p.avgPct) / cfg.prodTargetPct * 100 *
                cfg.prioProdWeight,
              signal := getProductivitySignal cfg p.avgPct cfg.prodTargetPct,
              value := (cfg.prodTargetPct - p.avgPct) / cfg.prodTargetPct * 100,
              unit := "%", date := p.date },
            ?_, rfl, rfl, rfl⟩
    unfold priorityCandidates
    refine List.mem_append.mpr (Or.inr ?_)
    apply List.mem_filterMap.mpr
    exact ⟨p, List.mem_filter.mpr ⟨hp, hin⟩, by simp [mkProductivityItem, hdrop]⟩

/-- Witness for C4: the 100-minute downtime day above the 30-minute green
ceiling contributes a candidate scored 100 × 1. -/
theorem computePriorityItems_spec_witness :
    ∃ it ∈ priorityCandidates prioCfgExample prioDataExample none,
      it.type = "downtime" ∧ it.date = "2026-01-01" ∧
        it.score = (100 : ℚ) * 1 :=
  (computePriorityItems_spec prioCfgExample prioDataExample none).2.2.2.2.1
    ⟨"2026-01-01", 100⟩ (by decide) rfl (by show (30 : ℚ) < 100; norm_num)

/-- The emission test spelled out: non-null non-empty reason text, or
non-null non-zero minutes. -/
theorem downtimeEmit_iff (r : DowntimeDailyRecord) :
    downtimeEmit r = true ↔
      ((∃ s, r.reasonText = some s ∧ s ≠ "") ∨ ∃ q, r.minutes = some q ∧ q ≠ 0) := by
  unfold downtimeEmit optStrTruthy optNumTruthy
  cases hrt : r.reasonText with
  | none => cases hm : r.minutes <;> simp
  | some s => cases hm : r.minutes <;> simp

/-- One row scan either leaves the output untouched or appends exactly the
pending records passing the emission test. -/
theorem downtimeProcessRow_out (dateCol : ℕ) (st : DowntimeState) (row : List Cell) :
    (downtimeProcessRow dateCol st row).out = st.out ∨
    (downtimeProcessRow dateCol st row).out = st.out ++ flushDowntime st.pending := by
  unfold downtimeProcessRow
  by_cases h1 : row.length < 2
  · simp [h1]
  · simp only [h1, if_false]
    cases hc : getCell row dateCol with
    | num q =>
      by_cases hq : q = 0
      · cases hl : st.lastDate <;> simp [hc, hq, hl]
      · right
        simp [hc, hq]
    | str s => cases hl : st.lastDate <;> simp [hc, hl]
    | undefined => cases hl : st.lastDate <;> simp [hc, hl]

/-- Every record the row-scan fold ever appends to the output passes the
emission test. -/
theorem downtimeFold_out_emit (dateCol : ℕ) (rows : List (List Cell)) :
    ∀ st : DowntimeState, (∀ r ∈ st.out, downtimeEmit r = true) →
      ∀ r ∈ (rows.foldl (downtimeProcessRow dateCol) st).out, downtimeEmit r = true := by
  induction rows with
  | nil => intro st h; exact h
  | cons row rows ih =>
    intro st h
    apply ih
    intro r hr
    rcases downtimeProcessRow_out dateCol st row with heq | heq <;> rw [heq] at hr
    · exact h r hr
    · rcases List.mem_append.mp hr with hmem | hmem
      · exact h r hmem
      · exact (List.mem_filter.mp hmem).2

/-- C3 (amended): in the downtime-history parser a pending record is
emitted — at a date-row flush or at sheet end — exactly when it carries
non-empty reason text or a non-null, NON-ZERO minutes value: every emitted
record satisfies that condition, a new-date row appends exactly the
passing pending records, and the emission test is precisely this
condition (so a record whose minutes are 0 with no reason text is
dropped, contrary to the original claim). -/
theorem parseDowntime_emission (data : List (List Cell)) :
    (∀ r ∈ parseDowntimeSheet data,
      (∃ s, r.reasonText = some s ∧ s ≠ "") ∨ ∃ q, r.minutes = some q ∧ q ≠ 0) ∧
    (∀ st : DowntimeState, ∀ row : List Cell, ∀ q : ℚ, ¬ row.length < 2 →
      getCell row (findDateCol (data.getD 1 [])) = Cell.num q → ¬ q = 0 →
      (downtimeProcessRow (findDateCol (data.getD 1 [])) st row).out =
        st.out ++ (st.pending.map (fun p => p.2)).filter downtimeEmit) ∧
    (∀ r : DowntimeDailyRecord, downtimeEmit r = true ↔
      ((∃ s, r.reasonText = some s ∧ s ≠ "") ∨ ∃ q, r.minutes = some q ∧ q ≠ 0)) := by
  refine ⟨?_, ?_, downtimeEmit_iff⟩
  · intro r hr
    unfold parseDowntimeSheet at hr
    by_cases hlen : data.length < 3
    · simp [hlen] at hr
    · simp only [hlen, if_false] at hr
      have hemit : downtimeEmit r = true := by
        rcases List.mem_append.mp hr with h1 | h2
        · exact downtimeFold_out_emit (findDateCol (data.getD 1 [])) (data.drop 2)
            ⟨none, [], []⟩ (fun r' hr' => absurd hr' (List.not_mem_nil r')) r h1
        · exact (List.mem_filter.mp h2).2
      exact (downtimeEmit_iff r).mp hemit
  · intro st row q h1 hc hq
    unfold downtimeProcessRow
    simp only [h1, if_false]
    rw [hc]
    simp [hq, flushDowntime]

/-- C3 counterexample: a date row carrying only a zero minutes value for
one equipment creates a pending record with non-null minutes, yet the
sheet emits nothing — refuting "a record with non-null minutes (including
0) and no reason text is emitted". -/
theorem parseDowntime_zero_minutes_not_emitted :
    (downtimeFinalState downtimeCexData).pending.map
        (fun p => ((p.2).minutes, (p.2).reasonText, (p.2).classification)) =
      [(some 0, none, none)] ∧
    parseDowntimeSheet downtimeCexData = [] := by
  decide

/-- Witness for C3 (amended): the date-row flush on the example sheet
appends exactly the filtered (here empty) pending set. -/
theorem parseDowntime_emission_witness :
    (downtimeProcessRow (findDateCol (downtimeCexData.getD 1 []))
        ⟨none, [], []⟩ (downtimeCexData.getD 2 [])).out =
      ([] : List DowntimeDailyRecord) ++
        (([] : List (String × DowntimeDailyRecord)).map (fun p => p.2)).filter
          downtimeEmit :=
  (parseDowntime_emission downtimeCexData).2.1 ⟨none, [], []⟩ (downtimeCexData.getD 2 [])
    45000 (by decide) (by decide) (by decide)
